import Mathlib

/-!
Shallow embedding of the human-resource-machine pipeline
(`src/parser.rs`, `src/compiler.rs`, `src/machine.rs`):
a lexer over an ordered list of backtracking productions, a compiler that
filters junk tokens and resolves labels, and a virtual machine with clamped
arithmetic and a rich step-error taxonomy.

Machine integers are modelled as `Int`/`Nat` with explicit `% 2^w` at the
places the Rust code performs truncating casts (`as u8`, `as i16`).
Rust panics (out-of-bounds indexing, `unwrap`, `unreachable!`) are modelled
as an outer `Option`: `none` is a panic.
-/

namespace HRM

/-- Association-list model of `std::collections::BTreeMap`: lookup by key. -/
def mapGet {α β : Type} [DecidableEq α] : List (α × β) → α → Option β
  | [], _ => none
  | (k, v) :: rest, n => if n = k then some v else mapGet rest n

/-- Association-list model of `BTreeMap::insert`: replaces the value of an
existing key, otherwise adds the binding. -/
def mapInsert {α β : Type} [DecidableEq α] : List (α × β) → α → β → List (α × β)
  | [], k, v => [(k, v)]
  | (k2, v2) :: rest, k, v =>
    if k = k2 then (k, v) :: rest else (k2, v2) :: mapInsert rest k v

/-- `parser.rs`: `enum Register { Direct(u8), Indirect(u8) }`.
The `u8` payload is modelled as `Nat`; the lexer only produces values in
`[0, 255]`. -/
inductive Register where
  | Direct (r : Nat)
  | Indirect (r : Nat)
  deriving DecidableEq, Repr

/-- `machine.rs`: runtime error taxonomy `enum StepError`. -/
inductive StepError where
  | EndOfProgram
  | IndirectThroughNil
  | IndirectThroughNegative
  | IndirectThroughLetter
  | OutputNil
  | CopyFromNil
  | CopyToNil
  | BumpNil
  | BumpLetter
  | AddWithNil
  | AddToNil
  | AddWithLetter
  | SubFromNil
  | SubWithNil
  | SubCrossTypes
  | JumpZeroNil
  | JumpNegativeNil
  | Underflow
  | Overflow
  deriving DecidableEq, Repr

/-- Rust `v as i16` truncating cast of a character's code point
(`NumberValue::from_char` does `c as i16`). -/
def toI16 (n : Nat) : Int := ((n : Int) + 32768) % 65536 - 32768

/-- `NumberValue::clamp`: values above `999` are `Overflow`, below `-999`
are `Underflow`, everything else is kept. -/
def NumberValue.clamp (v : Int) : Except StepError Int :=
  if 999 < v then Except.error StepError.Overflow
  else if v < -999 then Except.error StepError.Underflow
  else Except.ok v

/-- `NumberValue::add`. -/
def NumberValue.add (a b : Int) : Except StepError Int := NumberValue.clamp (a + b)

/-- `NumberValue::sub`. -/
def NumberValue.sub (a b : Int) : Except StepError Int := NumberValue.clamp (a - b)

/-- `NumberValue::increment`. -/
def NumberValue.increment (a : Int) : Except StepError Int := NumberValue.clamp (a + 1)

/-- `NumberValue::decrement`. -/
def NumberValue.decrement (a : Int) : Except StepError Int := NumberValue.clamp (a - 1)

/-- `NumberValue::from_char`: `clamp(c as i16)`. -/
def NumberValue.from_char (c : Char) : Except StepError Int :=
  NumberValue.clamp (toI16 c.toNat)

/-- `NumberValue::into_u8`: the Rust code does `self.0 as u8`, a truncating
cast of the `i16` to the low 8 bits. -/
def NumberValue.into_u8 (v : Int) : Nat := (v % 256).toNat

/-- `machine.rs`: `enum Tile { Number(NumberValue), Letter(char) }`. -/
inductive Tile where
  | Number (v : Int)
  | Letter (c : Char)
  deriving DecidableEq, Repr

/-- `machine.rs`: `enum Instruction`; jump targets are absolute indices. -/
inductive Instruction where
  | Inbox
  | Outbox
  | CopyFrom (r : Register)
  | CopyTo (r : Register)
  | BumpUp (r : Register)
  | BumpDown (r : Register)
  | Add (r : Register)
  | Sub (r : Register)
  | Jump (i : Nat)
  | JumpIfZero (i : Nat)
  | JumpIfNegative (i : Nat)
  | NoOp
  deriving DecidableEq, Repr

/-- `machine.rs`: `struct Machine`. `registers` models `BTreeMap<u8, Tile>`;
`input` is stored exactly as the Rust `Vec` after `Machine::new` reversed it,
so `Inbox` pops from the back of this list. -/
structure Machine where
  program : List Instruction
  input : List Tile
  output : List Tile
  pc : Nat
  accumulator : Option Tile
  registers : List (Nat × Tile)
  deriving DecidableEq, Repr

/-- `Machine::new`: reverses the input (so popping the back yields the
front of the queue), empties the output, zeroes the pc and accumulator. -/
def Machine.new (program : List Instruction) (input : List Tile)
    (registers : List (Nat × Tile)) : Machine :=
  { program := program
    input := input.reverse
    output := []
    pc := 0
    accumulator := none
    registers := registers }

/-- `Vec::pop`: removes and returns the last element. -/
def vecPop (l : List Tile) : Option (Tile × List Tile) :=
  match l.getLast? with
  | none => none
  | some v => some (v, l.dropLast)

/-- `Machine::deref_target`: resolve a register operand; indirect addressing
reads the pointing register and truncates the stored number with `as u8`. -/
def Machine.deref_target (m : Machine) (r : Register) : Except StepError Nat :=
  match r with
  | Register.Direct r => Except.ok r
  | Register.Indirect r =>
    match mapGet m.registers r with
    | none => Except.error StepError.IndirectThroughNil
    | some (Tile.Number v) =>
      if v < 0 then Except.error StepError.IndirectThroughNegative
      else Except.ok (NumberValue.into_u8 v)
    | some (Tile.Letter _) => Except.error StepError.IndirectThroughLetter

/-- The shared tail of `Machine::step`: `self.pc += 1` followed by the
end-of-program check. -/
def Machine.advance (m : Machine) : Machine × Option StepError :=
  let m2 := { m with pc := m.pc + 1 }
  if m2.program.length ≤ m2.pc then (m2, some StepError.EndOfProgram)
  else (m2, none)

/-- The body of `Machine::step` for a fetched instruction. Returns the
machine state after the step together with `none` (Rust `Ok(())`) or
`some e` (Rust `Err(e)`). Every early `return Err(..)` in the source leaves
the state untouched, so those arms return `m` unchanged. -/
def Machine.stepInstr (m : Machine) : Instruction → Machine × Option StepError
  | Instruction.Inbox =>
    match vecPop m.input with
    | some (v, rest) =>
      Machine.advance { m with input := rest, accumulator := some v }
    | none => (m, some StepError.EndOfProgram)
  | Instruction.Outbox =>
    match m.accumulator with
    | some v => Machine.advance { m with output := m.output ++ [v] }
    | none => (m, some StepError.OutputNil)
  | Instruction.CopyFrom r =>
    match m.deref_target r with
    | Except.error e => (m, some e)
    | Except.ok r2 =>
      match mapGet m.registers r2 with
      | none => (m, some StepError.CopyFromNil)
      | some v => Machine.advance { m with accumulator := some v }
  | Instruction.CopyTo r =>
    match m.accumulator with
    | none => (m, some StepError.CopyToNil)
    | some v =>
      match m.deref_target r with
      | Except.error e => (m, some e)
      | Except.ok r2 =>
        Machine.advance { m with registers := mapInsert m.registers r2 v }
  | Instruction.BumpUp r =>
    match m.deref_target r with
    | Except.error e => (m, some e)
    | Except.ok r2 =>
      match mapGet m.registers r2 with
      | none => (m, some StepError.BumpNil)
      | some (Tile.Letter _) => (m, some StepError.BumpLetter)
      | some (Tile.Number v) =>
        match NumberValue.increment v with
        | Except.error e => (m, some e)
        | Except.ok v2 =>
          Machine.advance { m with
            registers := mapInsert m.registers r2 (Tile.Number v2)
            accumulator := some (Tile.Number v2) }
  | Instruction.BumpDown r =>
    match m.deref_target r with
    | Except.error e => (m, some e)
    | Except.ok r2 =>
      match mapGet m.registers r2 with
      | none => (m, some StepError.BumpNil)
      | some (Tile.Letter _) => (m, some StepError.BumpLetter)
      | some (Tile.Number v) =>
        match NumberValue.decrement v with
        | Except.error e => (m, some e)
        | Except.ok v2 =>
          Machine.advance { m with
            registers := mapInsert m.registers r2 (Tile.Number v2)
            accumulator := some (Tile.Number v2) }
  | Instruction.Add r =>
    match m.deref_target r with
    | Except.error e => (m, some e)
    | Except.ok r2 =>
      match m.accumulator, mapGet m.registers r2 with
      | none, _ => (m, some StepError.AddToNil)
      | _, none => (m, some StepError.AddWithNil)
      | some (Tile.Number a), some (Tile.Number v) =>
        match NumberValue.add a v with
        | Except.error e => (m, some e)
        | Except.ok v2 => Machine.advance { m with accumulator := some (Tile.Number v2) }
      | _, _ => (m, some StepError.AddWithLetter)
  | Instruction.Sub r =>
    match m.deref_target r with
    | Except.error e => (m, some e)
    | Except.ok r2 =>
      match m.accumulator, mapGet m.registers r2 with
      | none, _ => (m, some StepError.SubFromNil)
      | _, none => (m, some StepError.SubWithNil)
      | some (Tile.Number a), some (Tile.Number v) =>
        match NumberValue.sub a v with
        | Except.error e => (m, some e)
        | Except.ok v2 => Machine.advance { m with accumulator := some (Tile.Number v2) }
      | some (Tile.Letter ca), some (Tile.Letter cv) =>
        match NumberValue.from_char ca with
        | Except.error e => (m, some e)
        | Except.ok a2 =>
          match NumberValue.from_char cv with
          | Except.error e => (m, some e)
          | Except.ok v2 =>
            match NumberValue.sub a2 v2 with
            | Except.error e => (m, some e)
            | Except.ok v3 => Machine.advance { m with accumulator := some (Tile.Number v3) }
      | _, _ => (m, some StepError.SubCrossTypes)
  | Instruction.Jump i => ({ m with pc := i }, none)
  | Instruction.JumpIfZero i =>
    match m.accumulator with
    | none => (m, some StepError.JumpZeroNil)
    | some (Tile.Number v) =>
      if v = 0 then ({ m with pc := i }, none) else Machine.advance m
    | some (Tile.Letter _) => Machine.advance m
  | Instruction.JumpIfNegative i =>
    match m.accumulator with
    | none => (m, some StepError.JumpNegativeNil)
    | some (Tile.Number v) =>
      if v < 0 then ({ m with pc := i }, none) else Machine.advance m
    | some (Tile.Letter _) => Machine.advance m
  | Instruction.NoOp => Machine.advance m

/-- `Machine::step`. The source indexes `self.program.0[self.pc]` without a
bounds check; an out-of-range pc is a Rust panic, modelled as `none`. -/
def Machine.step (m : Machine) : Option (Machine × Option StepError) :=
  match m.program[m.pc]? with
  | none => none
  | some i => some (m.stepInstr i)

/-- Outcome of `Machine::run`: `ok` is Rust `Ok(())` (the `EndOfProgram`
status, treated as success), `err` is any other `StepError`, and
`indexOutOfBounds` is the panic from fetching past the program. -/
inductive RunOutcome where
  | ok (m : Machine)
  | err (e : StepError) (m : Machine)
  | indexOutOfBounds
  deriving DecidableEq, Repr

/-- `Machine::run`, with explicit fuel (the Rust loop may not terminate);
`none` means the fuel ran out before the loop finished. -/
def Machine.run : Nat → Machine → Option RunOutcome
  | 0, _ => none
  | fuel + 1, m =>
    match m.step with
    | none => some RunOutcome.indexOutOfBounds
    | some (m2, none) => Machine.run fuel m2
    | some (m2, some StepError.EndOfProgram) => some (RunOutcome.ok m2)
    | some (m2, some e) => some (RunOutcome.err e m2)

/-- `parser.rs`: `enum Token`. Label names, comment ids and comment data are
string slices in the source, modelled as `String`. -/
inductive Token where
  | Header
  | Inbox
  | Outbox
  | CopyFrom (r : Register)
  | CopyTo (r : Register)
  | BumpUp (r : Register)
  | BumpDown (r : Register)
  | Add (r : Register)
  | Sub (r : Register)
  | LabelDefinition (name : String)
  | Jump (name : String)
  | JumpIfZero (name : String)
  | JumpIfNegative (name : String)
  | Comment (id : String)
  | CommentDefinition (id : String) (data : String)
  | Whitespace (s : String)
  deriving DecidableEq, Repr

/-- `compiler.rs`: `enum Error` without the `ParserError(E)` wrapping, since
the embedded `compile` consumes an already-lexed token list. -/
inductive CompileError where
  | UndefinedLabel
  deriving DecidableEq, Repr

/-- The filter predicate of `Program::compile`: tokens that are removed
because they do not change behavior. -/
def isJunk : Token → Bool
  | Token.Header => true
  | Token.Comment _ => true
  | Token.CommentDefinition _ _ => true
  | Token.Whitespace _ => true
  | _ => false

/-- The `without_junk` filtered token stream of `Program::compile`. -/
def withoutJunk (ts : List Token) : List Token := ts.filter (fun t => !(isJunk t))

/-- The label-table building loop of `Program::compile`: for every
`LabelDefinition(id)` at filtered index `i`, insert `id -> i`
(`BTreeMap::insert`, so later definitions overwrite earlier ones). -/
def labelScan : List Token → Nat → List (String × Nat) → List (String × Nat)
  | [], _, m => m
  | Token.LabelDefinition id :: ts, i, m => labelScan ts (i + 1) (mapInsert m id i)
  | _ :: ts, i, m => labelScan ts (i + 1) m

/-- The complete `label_mapping` of `Program::compile`. -/
def labelMapping (ts : List Token) : List (String × Nat) := labelScan ts 0 []

/-- The `unmap` closure of `Program::compile`:
`label_mapping.get(id).ok_or(Error::UndefinedLabel)`. -/
def unmap (m : List (String × Nat)) (id : String) : Except CompileError Nat :=
  match mapGet m id with
  | some x => Except.ok x
  | none => Except.error CompileError.UndefinedLabel

/-- One arm of the token-to-instruction translation in `Program::compile`.
The junk tokens hit `unreachable!()` in the source, modelled as `none`. -/
def compileOne (m : List (String × Nat)) : Token → Option (Except CompileError Instruction)
  | Token.Inbox => some (Except.ok Instruction.Inbox)
  | Token.Outbox => some (Except.ok Instruction.Outbox)
  | Token.CopyFrom r => some (Except.ok (Instruction.CopyFrom r))
  | Token.CopyTo r => some (Except.ok (Instruction.CopyTo r))
  | Token.BumpUp r => some (Except.ok (Instruction.BumpUp r))
  | Token.BumpDown r => some (Except.ok (Instruction.BumpDown r))
  | Token.Add r => some (Except.ok (Instruction.Add r))
  | Token.Sub r => some (Except.ok (Instruction.Sub r))
  | Token.LabelDefinition _ => some (Except.ok Instruction.NoOp)
  | Token.Jump id => some ((unmap m id).map Instruction.Jump)
  | Token.JumpIfZero id => some ((unmap m id).map Instruction.JumpIfZero)
  | Token.JumpIfNegative id => some ((unmap m id).map Instruction.JumpIfNegative)
  | _ => none

/-- The `collect::<Result<_, _>>` over the translated tokens: stops at the
first `UndefinedLabel`; `none` if the `unreachable!()` panic is hit. -/
def collectCompile (m : List (String × Nat)) : List Token → Option (Except CompileError (List Instruction))
  | [] => some (Except.ok [])
  | t :: ts =>
    match compileOne m t with
    | none => none
    | some (Except.error e) => some (Except.error e)
    | some (Except.ok i) =>
      match collectCompile m ts with
      | none => none
      | some (Except.error e) => some (Except.error e)
      | some (Except.ok is) => some (Except.ok (i :: is))

/-- `Program::compile` on an already-lexed token sequence: filter junk,
build the label table over the filtered stream, then translate each filtered
token in place. -/
def compile (ts : List Token) : Option (Except CompileError (List Instruction)) :=
  collectCompile (labelMapping (withoutJunk ts)) (withoutJunk ts)

/-- The name referenced by a jump token, if any. -/
def jumpTokenName : Token → Option String
  | Token.Jump n => some n
  | Token.JumpIfZero n => some n
  | Token.JumpIfNegative n => some n
  | _ => none

/-- The absolute target of a compiled jump instruction, if any. -/
def instrTarget : Instruction → Option Nat
  | Instruction.Jump j => some j
  | Instruction.JumpIfZero j => some j
  | Instruction.JumpIfNegative j => some j
  | _ => none

/-- Whether a token is a jump referencing `n`. -/
def isJumpTo (n : String) (t : Token) : Bool := jumpTokenName t == some n

/-- Whether a token is a `LabelDefinition` of `n`. -/
def definesLabel (n : String) : Token → Bool
  | Token.LabelDefinition id => id == n
  | _ => false

/-- Index of the last `LabelDefinition n` in a token list, carried through an
accumulator (`i` is the index of the list head, `acc` the best so far). -/
def lastLabelIdxAux : List Token → String → Nat → Option Nat → Option Nat
  | [], _, _, acc => acc
  | Token.LabelDefinition id :: ts, n, i, acc =>
    lastLabelIdxAux ts n (i + 1) (if n = id then some i else acc)
  | _ :: ts, n, i, acc => lastLabelIdxAux ts n (i + 1) acc

/-- Index of the last `LabelDefinition n` in a token list. -/
def lastLabelIdx (ts : List Token) (n : String) : Option Nat :=
  lastLabelIdxAux ts n 0 none

/-- `parser.rs`: `enum Error`, one variant per grammar production failure. -/
inductive LexError where
  | ExpectedHeader
  | ExpectedInbox
  | ExpectedOutbox
  | ExpectedCopyFrom
  | ExpectedCopyTo
  | ExpectedBumpUp
  | ExpectedBumpDown
  | ExpectedAdd
  | ExpectedSub
  | ExpectedIndirectRegister
  | ExpectedIndirectRegisterEnd
  | ExpectedRegisterValue
  | ExpectedLabelDefinition
  | ExpectedLabelValue
  | ExpectedJump
  | ExpectedJumpIfZero
  | ExpectedJumpIfNegative
  | ExpectedWhiteSpace
  | ExpectedComment
  | ExpectedCommentId
  | ExpectedCommentDefinition
  | ExpectedCommentDefinitionData
  | ExpectedCommentDefinitionEnd
  | ExpectedRegisterLabelDefinition
  | ExpectedRegisterLabelId
  | ExpectedRegisterLabelDefinitionData
  | ExpectedRegisterLabelDefinitionEnd
  | ExpectedColon
  deriving DecidableEq, Repr

/-- `StringPoint::consume_literal`: succeed (returning the rest of the
input) exactly when the literal is a prefix. -/
def consume_literal (lit s : List Char) : Option (List Char) :=
  if lit.isPrefixOf s then some (s.drop lit.length) else none

/-- `string_point_consume_while`: take the maximal run of characters that
satisfy the predicate; consuming zero characters is a failure (`none`). -/
def consume_while (p : Char → Bool) (s : List Char) : Option (List Char × List Char) :=
  let taken := s.takeWhile p
  if taken.isEmpty then none else some (taken, s.dropWhile p)

/-- Rust `char::is_whitespace` (the Unicode `White_Space` property),
used by `parse_whitespace`. -/
def rust_is_whitespace (c : Char) : Bool :=
  let n := c.toNat
  (decide (9 ≤ n) && decide (n ≤ 13)) || n == 32 || n == 133 || n == 160 || n == 5760 ||
  (decide (8192 ≤ n) && decide (n ≤ 8202)) || n == 8232 || n == 8233 || n == 8239 ||
  n == 8287 || n == 12288

/-- Numeric value of a run of decimal digits (Rust `str::parse`). -/
def digitsToNat (l : List Char) : Nat :=
  l.foldl (fun acc c => acc * 10 + (c.toNat - 48)) 0

/-- Result of one lexer production: `none` is a Rust panic (the
`parse().unwrap()` on an out-of-range register numeral), `some (error e)` a
recoverable production failure, `some (ok (v, rest))` success. -/
def LexRes (α : Type) : Type := Option (Except LexError (α × List Char))

/-- `parse_whitespace`. -/
def parse_whitespace (s : List Char) : LexRes Token :=
  match consume_while rust_is_whitespace s with
  | none => some (Except.error LexError.ExpectedWhiteSpace)
  | some (taken, rest) => some (Except.ok (Token.Whitespace (String.mk taken), rest))

/-- `parse_register_value`: a maximal digit run, parsed as `u8` with
`unwrap` — a numeral above 255 aborts the process (`none`). -/
def parse_register_value (s : List Char) : LexRes Nat :=
  match consume_while Char.isDigit s with
  | none => some (Except.error LexError.ExpectedRegisterValue)
  | some (taken, rest) =>
    if digitsToNat taken ≤ 255 then some (Except.ok (digitsToNat taken, rest))
    else none

/-- `parse_register_indirect`: `[`, register value, `]`. -/
def parse_register_indirect (s : List Char) : LexRes Register :=
  match consume_literal ['['] s with
  | none => some (Except.error LexError.ExpectedIndirectRegister)
  | some s1 =>
    match parse_register_value s1 with
    | none => none
    | some (Except.error e) => some (Except.error e)
    | some (Except.ok (v, s2)) =>
      match consume_literal [']'] s2 with
      | none => some (Except.error LexError.ExpectedIndirectRegisterEnd)
      | some s3 => some (Except.ok (Register.Indirect v, s3))

/-- `parse_register`: ordered alternation, indirect form first. -/
def parse_register (s : List Char) : LexRes Register :=
  match parse_register_indirect s with
  | none => none
  | some (Except.ok r) => some (Except.ok r)
  | some (Except.error _) =>
    match parse_register_value s with
    | none => none
    | some (Except.error e) => some (Except.error e)
    | some (Except.ok (v, rest)) => some (Except.ok (Register.Direct v, rest))

/-- `parse_single_register_instruction`: mnemonic literal, whitespace,
register operand. -/
def parse_single_register_instruction (name : List Char) (ctor : Register → Token)
    (err : LexError) (s : List Char) : LexRes Token :=
  match consume_literal name s with
  | none => some (Except.error err)
  | some s1 =>
    match parse_whitespace s1 with
    | none => none
    | some (Except.error e) => some (Except.error e)
    | some (Except.ok (_, s2)) =>
      match parse_register s2 with
      | none => none
      | some (Except.error e) => some (Except.error e)
      | some (Except.ok (r, s3)) => some (Except.ok (ctor r, s3))

/-- `parse_label_value`: a maximal run of `a`-`z`. -/
def parse_label_value (s : List Char) : LexRes String :=
  match consume_while (fun c => decide ('a' ≤ c) && decide (c ≤ 'z')) s with
  | none => some (Except.error LexError.ExpectedLabelValue)
  | some (taken, rest) => some (Except.ok (String.mk taken, rest))

/-- `parse_jump_instruction`: mnemonic literal, whitespace, label value. -/
def parse_jump_instruction (name : List Char) (ctor : String → Token)
    (err : LexError) (s : List Char) : LexRes Token :=
  match consume_literal name s with
  | none => some (Except.error err)
  | some s1 =>
    match parse_whitespace s1 with
    | none => none
    | some (Except.error e) => some (Except.error e)
    | some (Except.ok (_, s2)) =>
      match parse_label_value s2 with
      | none => none
      | some (Except.error e) => some (Except.error e)
      | some (Except.ok (lab, s3)) => some (Except.ok (ctor lab, s3))

/-- `parse_header`. -/
def parse_header (s : List Char) : LexRes Token :=
  match consume_literal ("-- HUMAN RESOURCE MACHINE PROGRAM --".toList) s with
  | none => some (Except.error LexError.ExpectedHeader)
  | some rest => some (Except.ok (Token.Header, rest))

/-- `parse_inbox`. -/
def parse_inbox (s : List Char) : LexRes Token :=
  match consume_literal ("INBOX".toList) s with
  | none => some (Except.error LexError.ExpectedInbox)
  | some rest => some (Except.ok (Token.Inbox, rest))

/-- `parse_outbox`. -/
def parse_outbox (s : List Char) : LexRes Token :=
  match consume_literal ("OUTBOX".toList) s with
  | none => some (Except.error LexError.ExpectedOutbox)
  | some rest => some (Except.ok (Token.Outbox, rest))

/-- `parse_copy_from`. -/
def parse_copy_from (s : List Char) : LexRes Token :=
  parse_single_register_instruction ("COPYFROM".toList) Token.CopyFrom LexError.ExpectedCopyFrom s

/-- `parse_copy_to`. -/
def parse_copy_to (s : List Char) : LexRes Token :=
  parse_single_register_instruction ("COPYTO".toList) Token.CopyTo LexError.ExpectedCopyTo s

/-- `parse_bump_up`. -/
def parse_bump_up (s : List Char) : LexRes Token :=
  parse_single_register_instruction ("BUMPUP".toList) Token.BumpUp LexError.ExpectedBumpUp s

/-- `parse_bump_down`: the mnemonic literal in the source is `BUMPDN`. -/
def parse_bump_down (s : List Char) : LexRes Token :=
  parse_single_register_instruction ("BUMPDN".toList) Token.BumpDown LexError.ExpectedBumpDown s

/-- `parse_add`. -/
def parse_add (s : List Char) : LexRes Token :=
  parse_single_register_instruction ("ADD".toList) Token.Add LexError.ExpectedAdd s

/-- `parse_sub`. -/
def parse_sub (s : List Char) : LexRes Token :=
  parse_single_register_instruction ("SUB".toList) Token.Sub LexError.ExpectedSub s

/-- `parse_label_definition`: label value then `:`. -/
def parse_label_definition (s : List Char) : LexRes Token :=
  match parse_label_value s with
  | none => none
  | some (Except.error _) => some (Except.error LexError.ExpectedLabelDefinition)
  | some (Except.ok (val, s1)) =>
    match consume_literal [':'] s1 with
    | none => some (Except.error LexError.ExpectedColon)
    | some s2 => some (Except.ok (Token.LabelDefinition val, s2))

/-- `parse_jump`. -/
def parse_jump (s : List Char) : LexRes Token :=
  parse_jump_instruction ("JUMP".toList) Token.Jump LexError.ExpectedJump s

/-- `parse_jump_if_zero`. -/
def parse_jump_if_zero (s : List Char) : LexRes Token :=
  parse_jump_instruction ("JUMPZ".toList) Token.JumpIfZero LexError.ExpectedJumpIfZero s

/-- `parse_jump_if_negative`. -/
def parse_jump_if_negative (s : List Char) : LexRes Token :=
  parse_jump_instruction ("JUMPN".toList) Token.JumpIfNegative LexError.ExpectedJumpIfNegative s

/-- `parse_comment_id`: a maximal digit run. -/
def parse_comment_id (s : List Char) : LexRes String :=
  match consume_while Char.isDigit s with
  | none => some (Except.error LexError.ExpectedCommentId)
  | some (taken, rest) => some (Except.ok (String.mk taken, rest))

/-- `parse_comment_data`: a maximal run of non-`;` characters. -/
def parse_comment_data (s : List Char) : LexRes String :=
  match consume_while (fun c => !(c == ';')) s with
  | none => some (Except.error LexError.ExpectedCommentDefinitionData)
  | some (taken, rest) => some (Except.ok (String.mk taken, rest))

/-- `parse_comment`: `COMMENT`, whitespace, comment id. -/
def parse_comment (s : List Char) : LexRes Token :=
  match consume_literal ("COMMENT".toList) s with
  | none => some (Except.error LexError.ExpectedComment)
  | some s1 =>
    match parse_whitespace s1 with
    | none => none
    | some (Except.error e) => some (Except.error e)
    | some (Except.ok (_, s2)) =>
      match parse_comment_id s2 with
      | none => none
      | some (Except.error e) => some (Except.error e)
      | some (Except.ok (id, s3)) => some (Except.ok (Token.Comment id, s3))

/-- `parse_comment_definition`: `DEFINE COMMENT`, whitespace, id,
whitespace, data, `;`. -/
def parse_comment_definition (s : List Char) : LexRes Token :=
  match consume_literal ("DEFINE COMMENT".toList) s with
  | none => some (Except.error LexError.ExpectedCommentDefinition)
  | some s1 =>
    match parse_whitespace s1 with
    | none => none
    | some (Except.error e) => some (Except.error e)
    | some (Except.ok (_, s2)) =>
      match parse_comment_id s2 with
      | none => none
      | some (Except.error e) => some (Except.error e)
      | some (Except.ok (id, s3)) =>
        match parse_whitespace s3 with
        | none => none
        | some (Except.error e) => some (Except.error e)
        | some (Except.ok (_, s4)) =>
          match parse_comment_data s4 with
          | none => none
          | some (Except.error e) => some (Except.error e)
          | some (Except.ok (data, s5)) =>
            match consume_literal [';'] s5 with
            | none => some (Except.error LexError.ExpectedCommentDefinitionEnd)
            | some s6 => some (Except.ok (Token.CommentDefinition id data, s6))

/-- `parse_register_label_id`: a maximal digit run. -/
def parse_register_label_id (s : List Char) : LexRes String :=
  match consume_while Char.isDigit s with
  | none => some (Except.error LexError.ExpectedRegisterLabelId)
  | some (taken, rest) => some (Except.ok (String.mk taken, rest))

/-- `parse_register_label_data`: a maximal run of non-`;` characters. -/
def parse_register_label_data (s : List Char) : LexRes String :=
  match consume_while (fun c => !(c == ';')) s with
  | none => some (Except.error LexError.ExpectedRegisterLabelDefinitionData)
  | some (taken, rest) => some (Except.ok (String.mk taken, rest))

/-- `parse_register_label_definition`: `DEFINE LABEL`, whitespace, id,
whitespace, data, `;` (also produces a `CommentDefinition` token). -/
def parse_register_label_definition (s : List Char) : LexRes Token :=
  match consume_literal ("DEFINE LABEL".toList) s with
  | none => some (Except.error LexError.ExpectedRegisterLabelDefinition)
  | some s1 =>
    match parse_whitespace s1 with
    | none => none
    | some (Except.error e) => some (Except.error e)
    | some (Except.ok (_, s2)) =>
      match parse_register_label_id s2 with
      | none => none
      | some (Except.error e) => some (Except.error e)
      | some (Except.ok (id, s3)) =>
        match parse_whitespace s3 with
        | none => none
        | some (Except.error e) => some (Except.error e)
        | some (Except.ok (_, s4)) =>
          match parse_register_label_data s4 with
          | none => none
          | some (Except.error e) => some (Except.error e)
          | some (Except.ok (data, s5)) =>
            match consume_literal [';'] s5 with
            | none => some (Except.error LexError.ExpectedRegisterLabelDefinitionEnd)
            | some s6 => some (Except.ok (Token.CommentDefinition id data, s6))

/-- The ordered backtracking alternation of `Parser::next`: try each
production from the same offset; the first full success wins; if all fail,
report every production's error in order; a panic inside a production
aborts the whole lexing step. -/
def alternate (ps : List (List Char → LexRes Token)) (s : List Char) :
    Option (Except (List LexError) (Token × List Char)) :=
  match ps with
  | [] => some (Except.error [])
  | p :: rest =>
    match p s with
    | none => none
    | some (Except.ok r) => some (Except.ok r)
    | some (Except.error e) =>
      match alternate rest s with
      | none => none
      | some (Except.ok r) => some (Except.ok r)
      | some (Except.error es) => some (Except.error (e :: es))

/-- The production list of `Parser::next`, in source order. -/
def productions : List (List Char → LexRes Token) :=
  [parse_header, parse_inbox, parse_outbox, parse_copy_from, parse_copy_to,
   parse_bump_up, parse_bump_down, parse_add, parse_sub,
   parse_label_definition, parse_jump, parse_jump_if_zero,
   parse_jump_if_negative, parse_comment, parse_comment_definition,
   parse_register_label_definition, parse_whitespace]

/-- One lexing step of `Parser::next` on a non-empty remainder of the
source text. -/
def lexStep (s : List Char) : Option (Except (List LexError) (Token × List Char)) :=
  alternate productions s

/-- Whether a lexing step produced a `BumpDown` token. -/
def producesBumpDown (r : Option (Except (List LexError) (Token × List Char))) : Bool :=
  match r with
  | some (Except.ok (Token.BumpDown _, _)) => true
  | _ => false

/-! ### Helper lemmas -/

theorem clamp_ok (v : Int) (h1 : -999 ≤ v) (h2 : v ≤ 999) :
    NumberValue.clamp v = Except.ok v := by
  unfold NumberValue.clamp
  rw [if_neg (by omega), if_neg (by omega)]

theorem clamp_over (v : Int) (h : 999 < v) :
    NumberValue.clamp v = Except.error StepError.Overflow := by
  unfold NumberValue.clamp
  rw [if_pos h]

theorem clamp_under (v : Int) (h : v < -999) :
    NumberValue.clamp v = Except.error StepError.Underflow := by
  unfold NumberValue.clamp
  rw [if_neg (by omega), if_pos h]

theorem vecPop_concat (l : List Tile) (t : Tile) : vecPop (l ++ [t]) = some (t, l) := by
  simp [vecPop]

/-! ### Theorems for the machine claims -/

/-- C2 (corrected): resolving `Indirect(r)` fails `IndirectThroughNil` when
register `r` is empty, `IndirectThroughLetter` when it holds a letter,
`IndirectThroughNegative` when it holds a negative number; it succeeds
exactly when the register holds a non-negative number, and the resolved
index is that number's value reduced modulo 256 (the `as u8` truncation) —
equal to the value itself only when the value is at most 255. -/
theorem C2_indirect_addressing_mod256 (m : Machine) (r : Nat) :
    (mapGet m.registers r = none →
      m.deref_target (Register.Indirect r) = Except.error StepError.IndirectThroughNil) ∧
    (∀ c, mapGet m.registers r = some (Tile.Letter c) →
      m.deref_target (Register.Indirect r) = Except.error StepError.IndirectThroughLetter) ∧
    (∀ v, mapGet m.registers r = some (Tile.Number v) → v < 0 →
      m.deref_target (Register.Indirect r) = Except.error StepError.IndirectThroughNegative) ∧
    (∀ v, mapGet m.registers r = some (Tile.Number v) → 0 ≤ v →
      m.deref_target (Register.Indirect r) = Except.ok ((v % 256).toNat)) ∧
    (∀ v, mapGet m.registers r = some (Tile.Number v) → 0 ≤ v → v ≤ 255 →
      m.deref_target (Register.Indirect r) = Except.ok v.toNat) ∧
    (∀ k, m.deref_target (Register.Indirect r) = Except.ok k →
      ∃ v, mapGet m.registers r = some (Tile.Number v) ∧ 0 ≤ v ∧ k = (v % 256).toNat) := by
  refine ⟨?_, ?_, ?_, ?_, ?_, ?_⟩
  · intro h
    simp [Machine.deref_target, h]
  · intro c h
    simp [Machine.deref_target, h]
  · intro v h hv
    simp [Machine.deref_target, h, hv]
  · intro v h hv
    simp [Machine.deref_target, h, NumberValue.into_u8]
    omega
  · intro v h hv1 hv2
    have hm : v % 256 = v := by omega
    simp [Machine.deref_target, h, NumberValue.into_u8, hm]
    omega
  · intro k hk
    cases hg : mapGet m.registers r with
    | none => simp [Machine.deref_target, hg] at hk
    | some t =>
      cases t with
      | Letter c => simp [Machine.deref_target, hg] at hk
      | Number v =>
        by_cases hv : v < 0
        · simp [Machine.deref_target, hg, hv] at hk
        · refine ⟨v, rfl, by omega, ?_⟩
          simp [Machine.deref_target, hg, hv, NumberValue.into_u8] at hk
          omega

/-- Witness for C2 at a concrete machine state. -/
theorem C2_witness :
    Machine.deref_target
      { program := [], input := [], output := [], pc := 0, accumulator := none,
        registers := [(0, Tile.Number 7)] } (Register.Indirect 0) = Except.ok 7 :=
  (C2_indirect_addressing_mod256 _ 0).2.2.2.2.1 7 rfl (by decide) (by decide)

/-- C2 counterexample: with register 0 holding `Number(300)` (a legal tile
value), indirect resolution succeeds with index `44 = 300 mod 256`, not
`300`, refuting "the resolved register index equals that Number's value". -/
theorem C2_counterexample_indirect_truncation :
    Machine.deref_target
      { program := [], input := [], output := [], pc := 0, accumulator := none,
        registers := [(0, Tile.Number 300)] } (Register.Indirect 0) = Except.ok 44 ∧
    (44 : Nat) ≠ 300 := by
  exact ⟨rfl, by decide⟩

/-- C3: for every number-producing operation (`Add`, `Sub`, `BumpUp`,
`BumpDown`), a result within `[-999, 999]` is stored as-is; a result above
`999` fails the step with `Overflow` and one below `-999` with `Underflow`,
and in both failure cases the whole machine state (in particular the
accumulator and the target register) is exactly the state from before the
step. For `Sub` on two letters the operands are first converted with
`as i16` + clamp; the conversion hypotheses make the result well-defined. -/
theorem C3_clamping_invariant :
    (∀ (m : Machine) (r : Register) (r2 : Nat) (a v : Int),
      m.program[m.pc]? = some (Instruction.Add r) →
      m.deref_target r = Except.ok r2 →
      m.accumulator = some (Tile.Number a) →
      mapGet m.registers r2 = some (Tile.Number v) →
      ((-999 ≤ a + v → a + v ≤ 999 →
        m.step = some (Machine.advance { m with accumulator := some (Tile.Number (a + v)) })) ∧
       (999 < a + v → m.step = some (m, some StepError.Overflow)) ∧
       (a + v < -999 → m.step = some (m, some StepError.Underflow)))) ∧
    (∀ (m : Machine) (r : Register) (r2 : Nat) (a v : Int),
      m.program[m.pc]? = some (Instruction.Sub r) →
      m.deref_target r = Except.ok r2 →
      m.accumulator = some (Tile.Number a) →
      mapGet m.registers r2 = some (Tile.Number v) →
      ((-999 ≤ a - v → a - v ≤ 999 →
        m.step = some (Machine.advance { m with accumulator := some (Tile.Number (a - v)) })) ∧
       (999 < a - v → m.step = some (m, some StepError.Overflow)) ∧
       (a - v < -999 → m.step = some (m, some StepError.Underflow)))) ∧
    (∀ (m : Machine) (r : Register) (r2 : Nat) (ca cv : Char),
      m.program[m.pc]? = some (Instruction.Sub r) →
      m.deref_target r = Except.ok r2 →
      m.accumulator = some (Tile.Letter ca) →
      mapGet m.registers r2 = some (Tile.Letter cv) →
      -999 ≤ toI16 ca.toNat → toI16 ca.toNat ≤ 999 →
      -999 ≤ toI16 cv.toNat → toI16 cv.toNat ≤ 999 →
      ((-999 ≤ toI16 ca.toNat - toI16 cv.toNat → toI16 ca.toNat - toI16 cv.toNat ≤ 999 →
        m.step = some (Machine.advance
          { m with accumulator := some (Tile.Number (toI16 ca.toNat - toI16 cv.toNat)) })) ∧
       (999 < toI16 ca.toNat - toI16 cv.toNat → m.step = some (m, some StepError.Overflow)) ∧
       (toI16 ca.toNat - toI16 cv.toNat < -999 → m.step = some (m, some StepError.Underflow)))) ∧
    (∀ (m : Machine) (r : Register) (r2 : Nat) (v : Int),
      m.program[m.pc]? = some (Instruction.BumpUp r) →
      m.deref_target r = Except.ok r2 →
      mapGet m.registers r2 = some (Tile.Number v) →
      ((-999 ≤ v + 1 → v + 1 ≤ 999 →
        m.step = some (Machine.advance { m with
          registers := mapInsert m.registers r2 (Tile.Number (v + 1))
          accumulator := some (Tile.Number (v + 1)) })) ∧
       (999 < v + 1 → m.step = some (m, some StepError.Overflow)) ∧
       (v + 1 < -999 → m.step = some (m, some StepError.Underflow)))) ∧
    (∀ (m : Machine) (r : Register) (r2 : Nat) (v : Int),
      m.program[m.pc]? = some (Instruction.BumpDown r) →
      m.deref_target r = Except.ok r2 →
      mapGet m.registers r2 = some (Tile.Number v) →
      ((-999 ≤ v - 1 → v - 1 ≤ 999 →
        m.step = some (Machine.advance { m with
          registers := mapInsert m.registers r2 (Tile.Number (v - 1))
          accumulator := some (Tile.Number (v - 1)) })) ∧
       (999 < v - 1 → m.step = some (m, some StepError.Overflow)) ∧
       (v - 1 < -999 → m.step = some (m, some StepError.Underflow)))) := by
  refine ⟨?_, ?_, ?_, ?_, ?_⟩
  · intro m r r2 a v hf hd ha hv
    refine ⟨?_, ?_, ?_⟩
    · intro h1 h2
      simp [Machine.step, hf, Machine.stepInstr, hd, ha, hv, NumberValue.add, clamp_ok _ h1 h2]
    · intro h
      simp [Machine.step, hf, Machine.stepInstr, hd, ha, hv, NumberValue.add, clamp_over _ h]
    · intro h
      simp [Machine.step, hf, Machine.stepInstr, hd, ha, hv, NumberValue.add, clamp_under _ h]
  · intro m r r2 a v hf hd ha hv
    refine ⟨?_, ?_, ?_⟩
    · intro h1 h2
      simp [Machine.step, hf, Machine.stepInstr, hd, ha, hv, NumberValue.sub, clamp_ok _ h1 h2]
    · intro h
      simp [Machine.step, hf, Machine.stepInstr, hd, ha, hv, NumberValue.sub, clamp_over _ h]
    · intro h
      simp [Machine.step, hf, Machine.stepInstr, hd, ha, hv, NumberValue.sub, clamp_under _ h]
  · intro m r r2 ca cv hf hd ha hv h1 h2 h3 h4
    refine ⟨?_, ?_, ?_⟩
    · intro hlo hhi
      simp [Machine.step, hf, Machine.stepInstr, hd, ha, hv, NumberValue.from_char,
        clamp_ok _ h1 h2, clamp_ok _ h3 h4, NumberValue.sub, clamp_ok _ hlo hhi]
    · intro h
      simp [Machine.step, hf, Machine.stepInstr, hd, ha, hv, NumberValue.from_char,
        clamp_ok _ h1 h2, clamp_ok _ h3 h4, NumberValue.sub, clamp_over _ h]
    · intro h
      simp [Machine.step, hf, Machine.stepInstr, hd, ha, hv, NumberValue.from_char,
        clamp_ok _ h1 h2, clamp_ok _ h3 h4, NumberValue.sub, clamp_under _ h]
  · intro m r r2 v hf hd hv
    refine ⟨?_, ?_, ?_⟩
    · intro h1 h2
      simp [Machine.step, hf, Machine.stepInstr, hd, hv, NumberValue.increment, clamp_ok _ h1 h2]
    · intro h
      simp [Machine.step, hf, Machine.stepInstr, hd, hv, NumberValue.increment, clamp_over _ h]
    · intro h
      simp [Machine.step, hf, Machine.stepInstr, hd, hv, NumberValue.increment, clamp_under _ h]
  · intro m r r2 v hf hd hv
    refine ⟨?_, ?_, ?_⟩
    · intro h1 h2
      simp [Machine.step, hf, Machine.stepInstr, hd, hv, NumberValue.decrement, clamp_ok _ h1 h2]
    · intro h
      simp [Machine.step, hf, Machine.stepInstr, hd, hv, NumberValue.decrement, clamp_over _ h]
    · intro h
      simp [Machine.step, hf, Machine.stepInstr, hd, hv, NumberValue.decrement, clamp_under _ h]

/-- Witness for C3: scenario E — accumulator `Number(999)`, register 0
holds `Number(1)`, `ADD 0` fails `Overflow` with the state unchanged. -/
theorem C3_witness :
    Machine.step
      { program := [Instruction.Add (Register.Direct 0)], input := [], output := [], pc := 0,
        accumulator := some (Tile.Number 999), registers := [(0, Tile.Number 1)] } =
      some ({ program := [Instruction.Add (Register.Direct 0)], input := [], output := [],
                pc := 0, accumulator := some (Tile.Number 999),
                registers := [(0, Tile.Number 1)] },
        some StepError.Overflow) :=
  (C3_clamping_invariant.1
    { program := [Instruction.Add (Register.Direct 0)], input := [], output := [], pc := 0,
      accumulator := some (Tile.Number 999), registers := [(0, Tile.Number 1)] }
    (Register.Direct 0) 0 999 1 rfl rfl rfl rfl).2.1 (by decide)

/-- C4: a machine whose pc points at `Inbox` with an empty input queue
reports `EndOfProgram` from `step()` with the whole state (in particular
the output) unchanged, and `run()` treats that status as success — exactly
as in the case of the pc advancing past the last instruction. -/
theorem C4_inbox_empty_end_of_program :
    (∀ (m : Machine) (fuel : Nat),
      m.program[m.pc]? = some Instruction.Inbox → m.input = [] →
      m.step = some (m, some StepError.EndOfProgram) ∧
      Machine.run (fuel + 1) m = some (RunOutcome.ok m)) ∧
    (∀ (m : Machine) (fuel : Nat),
      m.program[m.pc]? = some Instruction.NoOp →
      m.program.length ≤ m.pc + 1 →
      m.step = some ({ m with pc := m.pc + 1 }, some StepError.EndOfProgram) ∧
      Machine.run (fuel + 1) m = some (RunOutcome.ok { m with pc := m.pc + 1 })) := by
  constructor
  · intro m fuel hf hi
    have hs : m.step = some (m, some StepError.EndOfProgram) := by
      simp [Machine.step, hf, Machine.stepInstr, hi, vecPop]
    exact ⟨hs, by simp [Machine.run, hs]⟩
  · intro m fuel hf hl
    have hs : m.step = some ({ m with pc := m.pc + 1 }, some StepError.EndOfProgram) := by
      simp [Machine.step, hf, Machine.stepInstr, Machine.advance, hl]
    exact ⟨hs, by simp [Machine.run, hs]⟩

/-- Witness for C4: scenario B at a concrete machine. -/
theorem C4_witness :
    Machine.step
      { program := [Instruction.Inbox], input := [], output := [], pc := 0,
        accumulator := none, registers := [] } =
      some ({ program := [Instruction.Inbox], input := [], output := [],
                pc := 0, accumulator := none, registers := [] },
        some StepError.EndOfProgram) ∧
    Machine.run 1
      { program := [Instruction.Inbox], input := [], output := [], pc := 0,
        accumulator := none, registers := [] } =
      some (RunOutcome.ok { program := [Instruction.Inbox], input := [], output := [],
                            pc := 0, accumulator := none, registers := [] }) :=
  C4_inbox_empty_end_of_program.1
    { program := [Instruction.Inbox], input := [], output := [], pc := 0,
      accumulator := none, registers := [] } 0 rfl rfl

/-- C5: `Inbox` consumes the input queue strictly front-to-back (the
stored list is the reversed queue, so the front of the queue is the popped
last element) and `Outbox` appends the accumulator to the end of the
output; scenario A: `INBOX OUTBOX INBOX` on input `[1, 2, 3]` runs to
completion with output `[Number 1]` and the second `Inbox` holding
`Number 2` in the accumulator. -/
theorem C5_fifo_input_append_output :
    (∀ (m : Machine) (l : List Tile) (t : Tile),
      m.program[m.pc]? = some Instruction.Inbox → m.input = l ++ [t] →
      m.step = some (Machine.advance { m with input := l, accumulator := some t })) ∧
    (∀ (m : Machine) (v : Tile),
      m.program[m.pc]? = some Instruction.Outbox → m.accumulator = some v →
      m.step = some (Machine.advance { m with output := m.output ++ [v] })) ∧
    Machine.run 10 (Machine.new [Instruction.Inbox, Instruction.Outbox, Instruction.Inbox]
        [Tile.Number 1, Tile.Number 2, Tile.Number 3] []) =
      some (RunOutcome.ok
        { program := [Instruction.Inbox, Instruction.Outbox, Instruction.Inbox]
          input := [Tile.Number 3]
          output := [Tile.Number 1]
          pc := 3
          accumulator := some (Tile.Number 2)
          registers := [] }) := by
  refine ⟨?_, ?_, ?_⟩
  · intro m l t hf hi
    simp [Machine.step, hf, Machine.stepInstr, hi, vecPop_concat]
  · intro m v hf ha
    simp [Machine.step, hf, Machine.stepInstr, ha]
  · rfl

/-- Witness for C5 at a concrete machine. -/
theorem C5_witness :
    Machine.step
      { program := [Instruction.Inbox], input := [Tile.Number 2, Tile.Number 1], output := [],
        pc := 0, accumulator := none, registers := [] } =
      some (Machine.advance
        { program := [Instruction.Inbox], input := [Tile.Number 2], output := [],
          pc := 0, accumulator := some (Tile.Number 1), registers := [] }) :=
  C5_fifo_input_append_output.1 _ [Tile.Number 2] (Tile.Number 1) rfl rfl

/-- C8: `CopyTo` with an empty accumulator fails `CopyToNil` and the whole
machine state (pc, registers, everything) is the state from before the
failed step. -/
theorem C8_copy_to_nil_state_unchanged (m : Machine) (r : Register)
    (hf : m.program[m.pc]? = some (Instruction.CopyTo r))
    (ha : m.accumulator = none) :
    m.step = some (m, some StepError.CopyToNil) := by
  simp [Machine.step, hf, Machine.stepInstr, ha]

/-- Witness for C8: scenario C at a concrete machine. -/
theorem C8_witness :
    Machine.step
      { program := [Instruction.CopyTo (Register.Direct 0)], input := [], output := [],
        pc := 0, accumulator := none, registers := [] } =
      some ({ program := [Instruction.CopyTo (Register.Direct 0)], input := [], output := [],
                pc := 0, accumulator := none, registers := [] },
        some StepError.CopyToNil) :=
  C8_copy_to_nil_state_unchanged _ (Register.Direct 0) rfl rfl

/-- C10: `step()` on a machine built from an empty program hits the
unchecked instruction fetch out of bounds (a panic, modelled as `none`)
instead of reporting `EndOfProgram`; the fetch is total exactly under the
precondition `pc < program.length`. -/
theorem C10_step_partial_on_empty_program :
    (∀ (input : List Tile) (regs : List (Nat × Tile)),
      (Machine.new [] input regs).step = none) ∧
    (∀ m : Machine, m.pc < m.program.length → (m.step).isSome = true) := by
  constructor
  · intro input regs
    rfl
  · intro m h
    obtain ⟨i, hi⟩ : ∃ i, m.program[m.pc]? = some i := ⟨_, List.getElem?_eq_getElem h⟩
    simp [Machine.step, hi]

/-! ### Compiler lemmas -/

theorem mapGet_mapInsert {α β : Type} [DecidableEq α] (m : List (α × β)) (k : α) (v : β)
    (n : α) : mapGet (mapInsert m k v) n = if n = k then some v else mapGet m n := by
  induction m with
  | nil => simp [mapInsert, mapGet]
  | cons p rest ih =>
    obtain ⟨k2, v2⟩ := p
    by_cases hk : k = k2 <;> by_cases hn : n = k2 <;> by_cases hnk : n = k <;>
      simp_all [mapInsert, mapGet]

theorem labelScan_get (ts : List Token) (i : Nat) (m : List (String × Nat)) (n : String) :
    mapGet (labelScan ts i m) n = lastLabelIdxAux ts n i (mapGet m n) := by
  induction ts generalizing i m with
  | nil => rfl
  | cons t ts ih =>
    cases t
    case LabelDefinition id =>
      simp [labelScan, lastLabelIdxAux, ih, mapGet_mapInsert]
    all_goals simp [labelScan, lastLabelIdxAux, ih]

theorem lastLabelIdxAux_eq_none (ts : List Token) (n : String) (i : Nat) (acc : Option Nat) :
    lastLabelIdxAux ts n i acc = none ↔ acc = none ∧ ts.any (definesLabel n) = false := by
  induction ts generalizing i acc with
  | nil => simp [lastLabelIdxAux]
  | cons t ts ih =>
    cases t
    case LabelDefinition id =>
      by_cases hn : n = id
      · subst hn
        simp [lastLabelIdxAux, definesLabel, ih]
      · simp [lastLabelIdxAux, definesLabel, ih, hn, Ne.symm hn]
    all_goals simp [lastLabelIdxAux, definesLabel, ih]

theorem not_def_of_any_false (ts : List Token) (n : String)
    (h : ts.any (definesLabel n) = false) :
    ∀ k : Nat, ts[k]? ≠ some (Token.LabelDefinition n) := by
  intro k hk
  have hmem : Token.LabelDefinition n ∈ ts := List.getElem?_mem hk
  rw [List.any_eq_false] at h
  have := h _ hmem
  simp [definesLabel] at this

theorem lastLabelIdxAux_eq_some (ts : List Token) (n : String) (i : Nat) (acc : Option Nat)
    (j : Nat) (h : lastLabelIdxAux ts n i acc = some j) :
    (acc = some j ∧ ts.any (definesLabel n) = false) ∨
    (∃ k, j = i + k ∧ ts[k]? = some (Token.LabelDefinition n) ∧
      ∀ k2, k < k2 → ts[k2]? ≠ some (Token.LabelDefinition n)) := by
  induction ts generalizing i acc with
  | nil =>
    left
    exact ⟨h, rfl⟩
  | cons t ts ih =>
    cases t
    case LabelDefinition id =>
      by_cases hn : n = id
      · subst hn
        simp only [lastLabelIdxAux, if_pos rfl] at h
        rcases ih (i + 1) (some i) h with ⟨hacc, hany⟩ | ⟨k, hk, hdef, hafter⟩
        · have hij : i = j := Option.some.inj hacc
          subst hij
          right
          refine ⟨0, by omega, by simp, ?_⟩
          intro k2 hk2
          cases k2 with
          | zero => omega
          | succ k2 =>
            simp only [List.getElem?_cons_succ]
            exact not_def_of_any_false ts n hany k2
        · right
          refine ⟨k + 1, by omega, by simpa using hdef, ?_⟩
          intro k2 hk2
          cases k2 with
          | zero => omega
          | succ k2 =>
            simp only [List.getElem?_cons_succ]
            exact hafter k2 (by omega)
      · simp only [lastLabelIdxAux, if_neg hn] at h
        rcases ih (i + 1) acc h with ⟨hacc, hany⟩ | ⟨k, hk, hdef, hafter⟩
        · left
          refine ⟨hacc, ?_⟩
          simp [List.any_cons, definesLabel, Ne.symm hn, hany]
        · right
          refine ⟨k + 1, by omega, by simpa using hdef, ?_⟩
          intro k2 hk2
          cases k2 with
          | zero => omega
          | succ k2 =>
            simp only [List.getElem?_cons_succ]
            exact hafter k2 (by omega)
    all_goals {
      simp only [lastLabelIdxAux] at h
      rcases ih (i + 1) acc h with ⟨hacc, hany⟩ | ⟨k, hk, hdef, hafter⟩
      · left
        refine ⟨hacc, ?_⟩
        simp [List.any_cons, definesLabel, hany]
      · right
        refine ⟨k + 1, by omega, by simpa using hdef, ?_⟩
        intro k2 hk2
        cases k2 with
        | zero => omega
        | succ k2 =>
          simp only [List.getElem?_cons_succ]
          exact hafter k2 (by omega)
    }

theorem labelMapping_get (ts : List Token) (n : String) :
    mapGet (labelMapping ts) n = lastLabelIdx ts n := by
  rw [labelMapping, labelScan_get]
  rfl

theorem labelMapping_none_iff (ts : List Token) (n : String) :
    mapGet (labelMapping ts) n = none ↔ ts.any (definesLabel n) = false := by
  rw [labelMapping, labelScan_get]
  simp [lastLabelIdxAux_eq_none, mapGet]

theorem withoutJunk_noJunk (ts : List Token) : ∀ t ∈ withoutJunk ts, isJunk t = false := by
  intro t ht
  rw [withoutJunk, List.mem_filter] at ht
  simpa using ht.2

theorem any_withoutJunk (p : Token → Bool) (hp : ∀ t, p t = true → isJunk t = false)
    (ts : List Token) : (withoutJunk ts).any p = ts.any p := by
  rw [withoutJunk]
  induction ts with
  | nil => rfl
  | cons t ts ih =>
    rw [List.filter_cons]
    by_cases hj : isJunk t = true
    · have hpt : p t = false := by
        cases hpt : p t
        · rfl
        · simp [hp t hpt] at hj
      simp [hj, List.any_cons, hpt, ih]
    · simp only [Bool.not_eq_true] at hj
      simp [hj, List.any_cons, ih]

theorem isJumpTo_notJunk (n : String) : ∀ t, isJumpTo n t = true → isJunk t = false := by
  intro t h
  cases t <;> simp_all [isJumpTo, jumpTokenName, isJunk]

theorem definesLabel_notJunk (n : String) : ∀ t, definesLabel n t = true → isJunk t = false := by
  intro t h
  cases t <;> simp_all [definesLabel, isJunk]

theorem compileOne_jump (m : List (String × Nat)) (t : Token) (n : String) (i : Instruction)
    (hn : jumpTokenName t = some n) (h : compileOne m t = some (Except.ok i)) :
    ∃ j, mapGet m n = some j ∧ instrTarget i = some j := by
  cases t
  case Jump id =>
    simp only [jumpTokenName, Option.some.injEq] at hn
    subst hn
    cases hg : mapGet m id with
    | none => simp [compileOne, unmap, hg, Except.map] at h
    | some j =>
      simp only [compileOne, unmap, hg, Except.map, Option.some.injEq,
        Except.ok.injEq] at h
      subst h
      exact ⟨j, rfl, rfl⟩
  case JumpIfZero id =>
    simp only [jumpTokenName, Option.some.injEq] at hn
    subst hn
    cases hg : mapGet m id with
    | none => simp [compileOne, unmap, hg, Except.map] at h
    | some j =>
      simp only [compileOne, unmap, hg, Except.map, Option.some.injEq,
        Except.ok.injEq] at h
      subst h
      exact ⟨j, rfl, rfl⟩
  case JumpIfNegative id =>
    simp only [jumpTokenName, Option.some.injEq] at hn
    subst hn
    cases hg : mapGet m id with
    | none => simp [compileOne, unmap, hg, Except.map] at h
    | some j =>
      simp only [compileOne, unmap, hg, Except.map, Option.some.injEq,
        Except.ok.injEq] at h
      subst h
      exact ⟨j, rfl, rfl⟩
  all_goals simp [jumpTokenName] at hn

theorem compileOne_label (m : List (String × Nat)) (n : String) :
    compileOne m (Token.LabelDefinition n) = some (Except.ok Instruction.NoOp) := rfl

theorem compileOne_error (m : List (String × Nat)) (t : Token) (e : CompileError)
    (h : compileOne m t = some (Except.error e)) :
    ∃ n, jumpTokenName t = some n ∧ mapGet m n = none := by
  cases t
  case Jump id =>
    refine ⟨id, rfl, ?_⟩
    cases hg : mapGet m id with
    | none => rfl
    | some x => simp [compileOne, unmap, hg, Except.map] at h
  case JumpIfZero id =>
    refine ⟨id, rfl, ?_⟩
    cases hg : mapGet m id with
    | none => rfl
    | some x => simp [compileOne, unmap, hg, Except.map] at h
  case JumpIfNegative id =>
    refine ⟨id, rfl, ?_⟩
    cases hg : mapGet m id with
    | none => rfl
    | some x => simp [compileOne, unmap, hg, Except.map] at h
  all_goals simp [compileOne] at h

theorem compileOne_error_of (m : List (String × Nat)) (t : Token) (n : String)
    (ht : isJumpTo n t = true) (hg : mapGet m n = none) :
    compileOne m t = some (Except.error CompileError.UndefinedLabel) := by
  cases t <;> simp only [isJumpTo, jumpTokenName] at ht <;>
    simp only [beq_iff_eq, Option.some.injEq] at ht
  case Jump id =>
    subst ht
    simp [compileOne, unmap, hg, Except.map]
  case JumpIfZero id =>
    subst ht
    simp [compileOne, unmap, hg, Except.map]
  case JumpIfNegative id =>
    subst ht
    simp [compileOne, unmap, hg, Except.map]
  all_goals simp_all

theorem compileOne_ne_none (m : List (String × Nat)) (t : Token) (hj : isJunk t = false) :
    compileOne m t ≠ none := by
  cases t <;> simp [compileOne, isJunk] at hj ⊢

theorem compileOne_ok (m : List (String × Nat)) (t : Token) (hj : isJunk t = false)
    (hd : ∀ n, jumpTokenName t = some n → ∃ j, mapGet m n = some j) :
    ∃ i, compileOne m t = some (Except.ok i) := by
  cases t
  case Jump id =>
    obtain ⟨j, hjj⟩ := hd id rfl
    exact ⟨Instruction.Jump j, by simp [compileOne, unmap, hjj, Except.map]⟩
  case JumpIfZero id =>
    obtain ⟨j, hjj⟩ := hd id rfl
    exact ⟨Instruction.JumpIfZero j, by simp [compileOne, unmap, hjj, Except.map]⟩
  case JumpIfNegative id =>
    obtain ⟨j, hjj⟩ := hd id rfl
    exact ⟨Instruction.JumpIfNegative j, by simp [compileOne, unmap, hjj, Except.map]⟩
  all_goals first
    | exact ⟨_, rfl⟩
    | exact absurd hj (by simp [isJunk])

theorem collectCompile_ok_elem (m : List (String × Nat)) (ts : List Token)
    (prog : List Instruction) (h : collectCompile m ts = some (Except.ok prog)) :
    prog.length = ts.length ∧
    ∀ (k : Nat) (t : Token), ts[k]? = some t →
      ∃ i, prog[k]? = some i ∧ compileOne m t = some (Except.ok i) := by
  induction ts generalizing prog with
  | nil =>
    simp only [collectCompile, Option.some.injEq, Except.ok.injEq] at h
    subst h
    simp
  | cons t ts ih =>
    cases hc : compileOne m t with
    | none => rw [collectCompile, hc] at h; simp at h
    | some r =>
      cases r with
      | error e => rw [collectCompile, hc] at h; simp at h
      | ok i =>
        rw [collectCompile, hc] at h
        cases hr : collectCompile m ts with
        | none => rw [hr] at h; simp at h
        | some r2 =>
          cases r2 with
          | error e => rw [hr] at h; simp at h
          | ok prog2 =>
            rw [hr] at h
            simp only [Option.some.injEq, Except.ok.injEq] at h
            subst h
            obtain ⟨hlen, helem⟩ := ih prog2 hr
            refine ⟨by simp [hlen], ?_⟩
            intro k t2 hk
            cases k with
            | zero =>
              simp only [List.getElem?_cons_zero, Option.some.injEq] at hk
              subst hk
              exact ⟨i, by simp, hc⟩
            | succ k =>
              simp only [List.getElem?_cons_succ] at hk ⊢
              exact helem k t2 hk

theorem collectCompile_ok_exists (m : List (String × Nat)) (ts : List Token)
    (hj : ∀ t ∈ ts, isJunk t = false)
    (hd : ∀ n, ts.any (isJumpTo n) = true → ∃ j, mapGet m n = some j) :
    ∃ prog, collectCompile m ts = some (Except.ok prog) := by
  induction ts with
  | nil => exact ⟨[], rfl⟩
  | cons t ts ih =>
    obtain ⟨i, hi⟩ := compileOne_ok m t (hj t (by simp))
      (fun n hn => hd n (by simp [List.any_cons, isJumpTo, hn]))
    obtain ⟨prog, hp⟩ := ih (fun t2 ht2 => hj t2 (by simp [ht2]))
      (fun n hn => hd n (by simp [List.any_cons, hn]))
    exact ⟨i :: prog, by rw [collectCompile, hi, hp]⟩

theorem collectCompile_error_exists (m : List (String × Nat)) (ts : List Token)
    (e : CompileError) :
    collectCompile m ts = some (Except.error e) →
    ∃ n, ts.any (isJumpTo n) = true ∧ mapGet m n = none := by
  induction ts with
  | nil => intro h; simp [collectCompile] at h
  | cons t ts ih =>
    intro h
    cases hc : compileOne m t with
    | none => rw [collectCompile, hc] at h; simp at h
    | some r =>
      cases r with
      | error e2 =>
        obtain ⟨n, hn, hg⟩ := compileOne_error m t e2 hc
        exact ⟨n, by simp [List.any_cons, isJumpTo, hn], hg⟩
      | ok i =>
        rw [collectCompile, hc] at h
        cases hr : collectCompile m ts with
        | none => rw [hr] at h; simp at h
        | some r2 =>
          cases r2 with
          | ok p => rw [hr] at h; simp at h
          | error e2 =>
            obtain ⟨n, hn, hg⟩ := ih (by cases e; cases e2; exact hr)
            exact ⟨n, by simp [List.any_cons, hn], hg⟩

theorem collectCompile_error_of (m : List (String × Nat)) (ts : List Token) (n : String)
    (hj : ∀ t ∈ ts, isJunk t = false)
    (hjump : ts.any (isJumpTo n) = true) (hg : mapGet m n = none) :
    collectCompile m ts = some (Except.error CompileError.UndefinedLabel) := by
  induction ts with
  | nil => simp at hjump
  | cons t ts ih =>
    by_cases ht : isJumpTo n t = true
    · rw [collectCompile, compileOne_error_of m t n ht hg]
    · have hjump2 : ts.any (isJumpTo n) = true := by
        rw [List.any_cons] at hjump
        simpa [ht] using hjump
      have hrec := ih (fun t2 ht2 => hj t2 (by simp [ht2])) hjump2
      cases hc : compileOne m t with
      | none => exact absurd hc (compileOne_ne_none m t (hj t (by simp)))
      | some r =>
        cases r with
        | error e =>
          cases e
          rw [collectCompile, hc]
        | ok i =>
          rw [collectCompile, hc, hrec]

/-! ### Theorems for the compiler claims -/

/-- C1 counterexample: for `[LabelDefinition "a", Inbox, Jump "a"]` the
label sits at filtered index 0 and the instruction immediately following it
at index 1, yet the jump compiles to target 0 (the label's own `NoOp`
slot), not 1 as the claim states. -/
theorem C1_counterexample_label_self_index :
    compile [Token.LabelDefinition "a", Token.Inbox, Token.Jump "a"] =
      some (Except.ok [Instruction.NoOp, Instruction.Inbox, Instruction.Jump 0]) ∧
    compile [Token.LabelDefinition "a", Token.Inbox, Token.Jump "a"] ≠
      some (Except.ok [Instruction.NoOp, Instruction.Inbox, Instruction.Jump 1]) := by
  constructor
  · rfl
  · intro h
    rw [show compile [Token.LabelDefinition "a", Token.Inbox, Token.Jump "a"] =
        some (Except.ok [Instruction.NoOp, Instruction.Inbox, Instruction.Jump 0]) from rfl] at h
    simp at h

/-- C1 (amended): in a successfully compiled program every jump's resolved
target `j` is the filtered-stream index of the corresponding
`LabelDefinition` itself — the slot compiled to `NoOp` — namely the last
definition of that name, not the index immediately following it. -/
theorem C1_jump_resolves_to_label_own_index (ts : List Token) (prog : List Instruction)
    (k : Nat) (t : Token) (n : String) (i : Instruction) (j : Nat)
    (hc : compile ts = some (Except.ok prog))
    (hk : (withoutJunk ts)[k]? = some t)
    (hn : jumpTokenName t = some n)
    (hi : prog[k]? = some i)
    (hj : instrTarget i = some j) :
    (withoutJunk ts)[j]? = some (Token.LabelDefinition n) ∧
    prog[j]? = some Instruction.NoOp ∧
    lastLabelIdx (withoutJunk ts) n = some j := by
  rw [compile] at hc
  obtain ⟨hlen, helem⟩ := collectCompile_ok_elem _ _ _ hc
  obtain ⟨i2, hi2, hio⟩ := helem k t hk
  rw [hi] at hi2
  obtain rfl : i = i2 := by injection hi2
  obtain ⟨j2, hg, hj2⟩ := compileOne_jump _ t n i hn hio
  rw [hj] at hj2
  obtain rfl : j = j2 := by injection hj2
  have hlast : lastLabelIdx (withoutJunk ts) n = some j := by
    rw [← labelMapping_get]
    exact hg
  have hsome := hlast
  rw [lastLabelIdx] at hsome
  rcases lastLabelIdxAux_eq_some _ _ _ _ _ hsome with ⟨hacc, _⟩ | ⟨k0, hk0, hdef, _⟩
  · exact absurd hacc (by simp)
  · obtain rfl : j = k0 := by omega
    obtain ⟨i3, hi3, hio3⟩ := helem j _ hdef
    have : i3 = Instruction.NoOp := by
      have := compileOne_label (labelMapping (withoutJunk ts)) n
      rw [this] at hio3
      injection hio3 with h4
      injection h4 with h5
      exact h5.symm
    rw [this] at hi3
    exact ⟨hdef, hi3, hlast⟩

/-- Witness for C1 at a concrete program. -/
theorem C1_witness :
    (withoutJunk [Token.LabelDefinition "a", Token.Inbox, Token.Jump "a"])[0]? =
      some (Token.LabelDefinition "a") ∧
    ([Instruction.NoOp, Instruction.Inbox, Instruction.Jump 0] : List Instruction)[0]? =
      some Instruction.NoOp ∧
    lastLabelIdx (withoutJunk [Token.LabelDefinition "a", Token.Inbox, Token.Jump "a"]) "a" =
      some 0 :=
  C1_jump_resolves_to_label_own_index
    [Token.LabelDefinition "a", Token.Inbox, Token.Jump "a"]
    [Instruction.NoOp, Instruction.Inbox, Instruction.Jump 0]
    2 (Token.Jump "a") "a" (Instruction.Jump 0) 0 rfl rfl rfl rfl rfl

/-- C6: compilation fails with `UndefinedLabel` exactly when some jump
token's target name has no `LabelDefinition` anywhere in the token
sequence; in particular a forward reference (jump before the definition)
compiles successfully. -/
theorem C6_undefined_label_iff :
    (∀ ts : List Token,
      compile ts = some (Except.error CompileError.UndefinedLabel) ↔
      ∃ n, ts.any (isJumpTo n) = true ∧ ts.any (definesLabel n) = false) ∧
    compile [Token.Jump "a", Token.LabelDefinition "a"] =
      some (Except.ok [Instruction.Jump 1, Instruction.NoOp]) := by
  constructor
  · intro ts
    constructor
    · intro h
      rw [compile] at h
      obtain ⟨n, hn, hg⟩ := collectCompile_error_exists _ _ _ h
      refine ⟨n, ?_, ?_⟩
      · rw [← any_withoutJunk (isJumpTo n) (isJumpTo_notJunk n) ts]
        exact hn
      · rw [← any_withoutJunk (definesLabel n) (definesLabel_notJunk n) ts]
        exact (labelMapping_none_iff _ n).mp hg
    · rintro ⟨n, hn, hd⟩
      rw [compile]
      apply collectCompile_error_of _ _ n (withoutJunk_noJunk ts)
      · rw [any_withoutJunk (isJumpTo n) (isJumpTo_notJunk n) ts]
        exact hn
      · rw [labelMapping_none_iff]
        rw [any_withoutJunk (definesLabel n) (definesLabel_notJunk n) ts]
        exact hd
  · rfl

/-- Witness for C6: a jump with no definition anywhere fails
`UndefinedLabel`. -/
theorem C6_witness :
    compile [Token.Jump "x"] = some (Except.error CompileError.UndefinedLabel) :=
  (C6_undefined_label_iff.1 [Token.Jump "x"]).mpr ⟨"x", rfl, rfl⟩

/-- C7 counterexample: a token sequence with two `LabelDefinition`s of the
same name does not always compile — an unrelated undefined jump target
still fails the whole compilation, refuting the unconditional "compilation
succeeds". -/
theorem C7_counterexample_duplicate_labels :
    2 ≤ List.countP (definesLabel "l")
        [Token.LabelDefinition "l", Token.LabelDefinition "l", Token.Jump "x"] ∧
    compile [Token.LabelDefinition "l", Token.LabelDefinition "l", Token.Jump "x"] =
      some (Except.error CompileError.UndefinedLabel) := by
  exact ⟨by decide, rfl⟩

/-- C7 (amended): for a token sequence with two or more `LabelDefinition`s
of the same name in which every jump target has some definition,
compilation succeeds (duplicates never raise an error), and every jump
referencing the duplicated name resolves to the position of the last
definition in the filtered stream (no later definition of that name
exists beyond the resolved index). -/
theorem C7_last_definition_wins (ts : List Token) (n : String)
    (_hdup : 2 ≤ List.countP (definesLabel n) ts)
    (hdef : ∀ n2, ts.any (isJumpTo n2) = true → ts.any (definesLabel n2) = true) :
    (∃ prog, compile ts = some (Except.ok prog)) ∧
    (∀ (prog : List Instruction) (k : Nat) (t : Token) (i : Instruction) (j : Nat),
      compile ts = some (Except.ok prog) →
      (withoutJunk ts)[k]? = some t → jumpTokenName t = some n →
      prog[k]? = some i → instrTarget i = some j →
      ((withoutJunk ts)[j]? = some (Token.LabelDefinition n) ∧
       ∀ j2, j < j2 → (withoutJunk ts)[j2]? ≠ some (Token.LabelDefinition n))) ∧
    compile [Token.LabelDefinition "loop", Token.Inbox, Token.LabelDefinition "loop",
        Token.Jump "loop"] =
      some (Except.ok [Instruction.NoOp, Instruction.Inbox, Instruction.NoOp,
        Instruction.Jump 2]) := by
  refine ⟨?_, ?_, rfl⟩
  · rw [compile]
    apply collectCompile_ok_exists _ _ (withoutJunk_noJunk ts)
    intro n2 hn2
    rw [any_withoutJunk (isJumpTo n2) (isJumpTo_notJunk n2) ts] at hn2
    have hany := hdef n2 hn2
    cases hg : mapGet (labelMapping (withoutJunk ts)) n2 with
    | some j => exact ⟨j, rfl⟩
    | none =>
      rw [labelMapping_none_iff] at hg
      rw [any_withoutJunk (definesLabel n2) (definesLabel_notJunk n2) ts] at hg
      rw [hany] at hg
      exact absurd hg (by simp)
  · intro prog k t i j hc hk hn hi hj
    rw [compile] at hc
    obtain ⟨hlen, helem⟩ := collectCompile_ok_elem _ _ _ hc
    obtain ⟨i2, hi2, hio⟩ := helem k t hk
    rw [hi] at hi2
    obtain rfl : i = i2 := by injection hi2
    obtain ⟨j2, hg, hj2⟩ := compileOne_jump _ t n i hn hio
    rw [hj] at hj2
    obtain rfl : j = j2 := by injection hj2
    have hsome : lastLabelIdxAux (withoutJunk ts) n 0 none = some j := by
      have := labelMapping_get (withoutJunk ts) n
      rw [hg] at this
      exact this.symm
    rcases lastLabelIdxAux_eq_some _ _ _ _ _ hsome with ⟨hacc, _⟩ | ⟨k0, hk0, hdef2, hafter⟩
    · exact absurd hacc (by simp)
    · obtain rfl : j = k0 := by omega
      refine ⟨hdef2, ?_⟩
      intro j2 hj2gt
      exact hafter j2 hj2gt

/-- Witness for C7: scenario F — two labels named `loop`, the later
`JUMP loop` resolves to the second definition's index. -/
theorem C7_witness :
    compile [Token.LabelDefinition "loop", Token.Inbox, Token.LabelDefinition "loop",
        Token.Jump "loop"] =
      some (Except.ok [Instruction.NoOp, Instruction.Inbox, Instruction.NoOp,
        Instruction.Jump 2]) :=
  (C7_last_definition_wins
    [Token.LabelDefinition "loop", Token.Inbox, Token.LabelDefinition "loop",
      Token.Jump "loop"] "loop" (by decide)
    (fun n2 h => by
      simp [isJumpTo, jumpTokenName] at h
      subst h
      decide)).2.2

/-! ### Lexer lemmas -/

theorem takeWhile_append_all {α : Type} (p : α → Bool) (w t : List α)
    (h : ∀ c ∈ w, p c = true) : (w ++ t).takeWhile p = w ++ t.takeWhile p := by
  induction w with
  | nil => simp
  | cons c w ih =>
    have hc : p c = true := h c (by simp)
    rw [List.cons_append, List.takeWhile_cons, hc]
    simp [ih (fun c2 hc2 => h c2 (by simp [hc2]))]

theorem dropWhile_append_all {α : Type} (p : α → Bool) (w t : List α)
    (h : ∀ c ∈ w, p c = true) : (w ++ t).dropWhile p = t.dropWhile p := by
  induction w with
  | nil => simp
  | cons c w ih =>
    have hc : p c = true := h c (by simp)
    rw [List.cons_append, List.dropWhile_cons, hc]
    simpa using ih (fun c2 hc2 => h c2 (by simp [hc2]))

theorem takeWhile_nil_of_head {α : Type} (p : α → Bool) (t : List α)
    (h : ∀ c, t.head? = some c → p c = false) : t.takeWhile p = [] := by
  cases t with
  | nil => rfl
  | cons c t => simp [List.takeWhile_cons, h c rfl]

theorem dropWhile_self_of_head {α : Type} (p : α → Bool) (t : List α)
    (h : ∀ c, t.head? = some c → p c = false) : t.dropWhile p = t := by
  cases t with
  | nil => rfl
  | cons c t => simp [List.dropWhile_cons, h c rfl]

theorem digit_toNat_bounds (c : Char) (h : c.isDigit = true) :
    48 ≤ c.toNat ∧ c.toNat ≤ 57 := by
  simp [Char.isDigit] at h
  obtain ⟨h1, h2⟩ := h
  constructor
  · exact h1
  · exact h2

theorem digit_not_whitespace (c : Char) (h : c.isDigit = true) :
    rust_is_whitespace c = false := by
  obtain ⟨h1, h2⟩ := digit_toNat_bounds c h
  simp [rust_is_whitespace]
  omega

theorem digit_ne_lbracket (c : Char) (h : c.isDigit = true) : ('[' == c) = false := by
  cases hb : ('[' == c)
  · rfl
  · exfalso
    have he : '[' = c := by exact beq_iff_eq.mp hb
    rw [← he] at h
    simp [Char.isDigit] at h

theorem rbracket_not_digit : ∀ c : Char, (']' :: ([] : List Char)).head? = some c → c.isDigit = false := by
  intro c hc
  simp at hc
  subst hc
  decide

theorem parse_whitespace_run (w t : List Char) (hw : w ≠ [])
    (hall : ∀ c ∈ w, rust_is_whitespace c = true)
    (ht : ∀ c, t.head? = some c → rust_is_whitespace c = false) :
    parse_whitespace (w ++ t) = some (Except.ok (Token.Whitespace (String.mk w), t)) := by
  unfold parse_whitespace consume_while
  rw [takeWhile_append_all _ _ _ hall, dropWhile_append_all _ _ _ hall,
    takeWhile_nil_of_head _ _ ht, dropWhile_self_of_head _ _ ht]
  simp [hw]

theorem parse_register_value_digits (d t : List Char) (hd : d ≠ [])
    (hall : ∀ c ∈ d, c.isDigit = true) (h255 : digitsToNat d ≤ 255)
    (ht : ∀ c, t.head? = some c → c.isDigit = false) :
    parse_register_value (d ++ t) = some (Except.ok (digitsToNat d, t)) := by
  unfold parse_register_value consume_while
  rw [takeWhile_append_all _ _ _ hall, dropWhile_append_all _ _ _ hall,
    takeWhile_nil_of_head _ _ ht, dropWhile_self_of_head _ _ ht]
  simp [hd, h255]

theorem parse_register_digits (d t : List Char) (hd : d ≠ [])
    (hall : ∀ c ∈ d, c.isDigit = true) (h255 : digitsToNat d ≤ 255)
    (ht : ∀ c, t.head? = some c → c.isDigit = false) :
    parse_register (d ++ t) = some (Except.ok (Register.Direct (digitsToNat d), t)) := by
  obtain ⟨c0, d2, rfl⟩ : ∃ c0 d2, d = c0 :: d2 := by
    cases d with
    | nil => exact absurd rfl hd
    | cons c0 d2 => exact ⟨c0, d2, rfl⟩
  have hc0 : c0.isDigit = true := hall c0 (by simp)
  have hlb : consume_literal ['['] ((c0 :: d2) ++ t) = none := by
    simp [consume_literal, List.isPrefixOf, digit_ne_lbracket c0 hc0]
  unfold parse_register parse_register_indirect
  simp only [hlb, parse_register_value_digits (c0 :: d2) t hd hall h255 ht]

theorem parse_register_indirect_digits (d t : List Char) (hd : d ≠ [])
    (hall : ∀ c ∈ d, c.isDigit = true) (h255 : digitsToNat d ≤ 255) :
    parse_register ('[' :: (d ++ (']' :: t))) =
      some (Except.ok (Register.Indirect (digitsToNat d), t)) := by
  have hrb : ∀ c : Char, (']' :: t).head? = some c → c.isDigit = false := by
    intro c hc
    simp at hc
    subst hc
    decide
  have hlb : consume_literal ['['] ('[' :: (d ++ (']' :: t))) = some (d ++ (']' :: t)) := by
    simp [consume_literal, List.isPrefixOf]
  have hrbend : consume_literal [']'] (']' :: t) = some t := by
    simp [consume_literal, List.isPrefixOf]
  unfold parse_register parse_register_indirect
  simp only [hlb, parse_register_value_digits d (']' :: t) hd hall h255 hrb, hrbend]

theorem parse_header_B (s : List Char) :
    parse_header ('B' :: s) = some (Except.error LexError.ExpectedHeader) := rfl

theorem parse_inbox_B (s : List Char) :
    parse_inbox ('B' :: s) = some (Except.error LexError.ExpectedInbox) := rfl

theorem parse_outbox_B (s : List Char) :
    parse_outbox ('B' :: s) = some (Except.error LexError.ExpectedOutbox) := rfl

theorem parse_copy_from_B (s : List Char) :
    parse_copy_from ('B' :: s) = some (Except.error LexError.ExpectedCopyFrom) := rfl

theorem parse_copy_to_B (s : List Char) :
    parse_copy_to ('B' :: s) = some (Except.error LexError.ExpectedCopyTo) := rfl

theorem parse_bump_up_BUMPD (s : List Char) :
    parse_bump_up ('B' :: 'U' :: 'M' :: 'P' :: 'D' :: s) =
      some (Except.error LexError.ExpectedBumpUp) := rfl

theorem parse_bump_down_BUMPDN (s : List Char) :
    parse_bump_down ('B' :: 'U' :: 'M' :: 'P' :: 'D' :: 'N' :: s) =
      (match parse_whitespace s with
      | none => none
      | some (Except.error e) => some (Except.error e)
      | some (Except.ok (_, s2)) =>
        match parse_register s2 with
        | none => none
        | some (Except.error e) => some (Except.error e)
        | some (Except.ok (r, s3)) => some (Except.ok (Token.BumpDown r, s3))) := by
  have h6 : consume_literal ("BUMPDN".toList) ('B' :: 'U' :: 'M' :: 'P' :: 'D' :: 'N' :: s) =
      some s := by
    simp [consume_literal, List.isPrefixOf]
  unfold parse_bump_down parse_single_register_instruction
  simp only [h6]


/-! ### Theorems for the lexer claim -/

/-- C9 counterexample: lexing at a position where the literal `BUMPDOWN`
appears (followed by whitespace and a register operand) produces no
`BumpDown` token — every production fails, because the mnemonic accepted by
`parse_bump_down` is spelled `BUMPDN`, which does lex to a `BumpDown`
token. -/
theorem C9_counterexample_bumpdown_spelling :
    producesBumpDown (lexStep ("BUMPDOWN 1".toList)) = false ∧
    lexStep ("BUMPDN 1".toList) =
      some (Except.ok (Token.BumpDown (Register.Direct 1), [])) := by
  exact ⟨rfl, rfl⟩

/-- C9 (amended): at every source position where the literal mnemonic
`BUMPDN` (not `BUMPDOWN`) appears followed by a whitespace run and a
register operand (direct digits or `[digits]`), the lexer produces a
`BumpDown` token carrying that operand. -/
theorem C9_bumpdn_lexes_bump_down :
    (∀ (w d rest : List Char),
      w ≠ [] → (∀ c ∈ w, rust_is_whitespace c = true) →
      d ≠ [] → (∀ c ∈ d, c.isDigit = true) → digitsToNat d ≤ 255 →
      (∀ c, rest.head? = some c → c.isDigit = false) →
      lexStep ('B' :: 'U' :: 'M' :: 'P' :: 'D' :: 'N' :: (w ++ (d ++ rest))) =
        some (Except.ok (Token.BumpDown (Register.Direct (digitsToNat d)), rest))) ∧
    (∀ (w d rest : List Char),
      w ≠ [] → (∀ c ∈ w, rust_is_whitespace c = true) →
      d ≠ [] → (∀ c ∈ d, c.isDigit = true) → digitsToNat d ≤ 255 →
      lexStep ('B' :: 'U' :: 'M' :: 'P' :: 'D' :: 'N' :: (w ++ ('[' :: (d ++ (']' :: rest))))) =
        some (Except.ok (Token.BumpDown (Register.Indirect (digitsToNat d)), rest))) := by
  constructor
  · intro w d rest hw hwall hd hdall h255 hrest
    have hws : parse_whitespace (w ++ (d ++ rest)) =
        some (Except.ok (Token.Whitespace (String.mk w), d ++ rest)) := by
      apply parse_whitespace_run w (d ++ rest) hw hwall
      intro c hc
      obtain ⟨c0, d2, rfl⟩ : ∃ c0 d2, d = c0 :: d2 := by
        cases d with
        | nil => exact absurd rfl hd
        | cons c0 d2 => exact ⟨c0, d2, rfl⟩
      simp at hc
      subst hc
      exact digit_not_whitespace c0 (hdall c0 (by simp))
    have hreg := parse_register_digits d rest hd hdall h255 hrest
    rw [lexStep, productions]
    simp only [alternate, parse_header_B, parse_inbox_B, parse_outbox_B, parse_copy_from_B,
      parse_copy_to_B, parse_bump_up_BUMPD, parse_bump_down_BUMPDN, hws, hreg]
  · intro w d rest hw hwall hd hdall h255
    have hws : parse_whitespace (w ++ ('[' :: (d ++ (']' :: rest)))) =
        some (Except.ok (Token.Whitespace (String.mk w), '[' :: (d ++ (']' :: rest)))) := by
      apply parse_whitespace_run w _ hw hwall
      intro c hc
      simp at hc
      subst hc
      decide
    have hreg := parse_register_indirect_digits d rest hd hdall h255
    rw [lexStep, productions]
    simp only [alternate, parse_header_B, parse_inbox_B, parse_outbox_B, parse_copy_from_B,
      parse_copy_to_B, parse_bump_up_BUMPD, parse_bump_down_BUMPDN, hws, hreg]

/-- Witness for C9 at the concrete text `BUMPDN 1`. -/
theorem C9_witness :
    lexStep ('B' :: 'U' :: 'M' :: 'P' :: 'D' :: 'N' :: ([' '] ++ (['1'] ++ []))) =
      some (Except.ok (Token.BumpDown (Register.Direct (digitsToNat ['1'])), [])) :=
  C9_bumpdn_lexes_bump_down.1 [' '] ['1'] [] (by decide) (by decide) (by decide)
    (by decide) (by decide) (by intro c hc; simp at hc)

/-- Witness for C10 at a concrete in-bounds machine. -/
theorem C10_witness :
    (Machine.step { program := [Instruction.NoOp], input := [], output := [],
                    pc := 0, accumulator := none, registers := [] }).isSome = true :=
  C10_step_partial_on_empty_program.2
    { program := [Instruction.NoOp], input := [], output := [], pc := 0,
      accumulator := none, registers := [] } (by decide)

end HRM
